import Mathlib

/-!
# github_rate_limit_exporter: configuration loading and the rate-limit collector

A shallow embedding of `internal/config/config.go` (`LoadConfig`), of
`internal/collector/collector.go` (`NewCollector`, `updateUserRateLimits`,
`Collect`, the ticker of `StartPolling`) and of the polling interval computed in
`cmd/exporter/main.go`, followed by theorems about them.

Conventions of the embedding:

* a Go `map[string]V` is an association list with distinct keys (`StrMap`);
  Go does not fix an iteration order, the list order is an artefact of the model;
* a Go `int` is an `Int`; the one arithmetic operation of the code,
  `Limit - Remaining`, wraps at 64 bits (`subInt`);
* a gauge holds a `float64`; every value the code stores is `float64(n)` for an
  integer `n`, which is again an integer, so a gauge value is kept as that `Int`
  (`float64` rounds to 53 significant bits the way Go does);
* the file system, the three decoders, the case tables of package `unicode` and the
  remote API are inputs of the functions that use them (`Env`, and the `Get` argument);
* a run-time panic is an explicit outcome (`Outcome.panicked`).
-/

namespace GithubRateLimitExporter

/-! ## Go maps with string keys -/

/-- A Go `map[string]V`: an association list in which every key occurs once. -/
abbrev StrMap (V : Type) := List (String × V)

namespace StrMap

variable {V : Type}

/-- The empty map, `make(map[string]V)`. -/
def empty : StrMap V := []

/-- The lookup `v, ok := m[k]`. -/
def lookup : StrMap V → String → Option V
  | [], _ => none
  | (k', v) :: rest, k => if k' = k then some v else lookup rest k

/-- The assignment `m[k] = v`: replaces the value of an existing key, adds the key otherwise. -/
def store : StrMap V → String → V → StrMap V
  | [], k, v => [(k, v)]
  | (k', v') :: rest, k, v => if k' = k then (k', v) :: rest else (k', v') :: store rest k v

/-- The keys of the map. -/
def keys (m : StrMap V) : List String := m.map Prod.fst

end StrMap

/-! ## `internal/config` -/

/-- User represents a GitHub user to monitor. -/
structure User where
  Name : String
  Token : String
  deriving DecidableEq, Repr

/-- Config represents the application configuration. -/
structure Config where
  Users : List User
  ListenAddr : String
  MetricsPath : String
  PollInterval : Int
  deriving DecidableEq, Repr

/-- The errors `LoadConfig` returns, one constructor per `fmt.Errorf` of the function. -/
inductive ConfigError where
  /-- The text "failed to read config file: %w". -/
  | readFailed (cause : String)
  /-- The text "unsupported config file format: %s (supported: .yaml, .yml, .toml, .hcl)". -/
  | unsupportedFormat (ext : String)
  /-- The text "failed to parse config file: %w". -/
  | parseFailed (cause : String)
  /-- The text "no users defined in config". -/
  | noUsers
  /-- The text "user at index %d has no name". -/
  | userNoName (index : Nat)
  /-- The text "user %s has no token". -/
  | userNoToken (name : String)
  deriving DecidableEq, Repr

/-- What `LoadConfig` uses from outside the repository: `os.ReadFile`, the three decoders
and the case tables of Go's package `unicode`. A decoder fills a zero-valued `Config` and
returns it, or fails. `unicodeToLower` is `unicode.ToLower` on the runes above ASCII. -/
structure Env where
  ReadFile : String → Except String (List UInt8)
  yamlUnmarshal : List UInt8 → Except String Config
  tomlUnmarshal : List UInt8 → Except String Config
  hclDecode : String → List UInt8 → Except String Config
  unicodeToLower : Char → Char

/-- The loop of `filepath.Ext`, run over the characters of the path from its end:
stop at a path separator, return the suffix that starts at the first dot met. -/
def extScan : List Char → List Char → List Char
  | [], _ => []
  | ch :: before, suffix =>
    if ch = '/' then []
    else if ch = '.' then '.' :: suffix
    else extScan before (ch :: suffix)

/-- Go's `filepath.Ext` (Unix path separator): the suffix beginning at the final dot
in the final element of the path, empty if there is no dot. -/
def Ext (path : String) : String := String.mk (extScan path.data.reverse [])

/-- Go's `unicode.ToLower` on one rune: up to `unicode.MaxASCII` the letters `A`..`Z` are
mapped to `a`..`z` and every other rune to itself; above, the case tables decide. -/
def toLowerRune (table : Char → Char) (ch : Char) : Char :=
  if ch.toNat ≤ 127 then Char.toLower ch else table ch

/-- Go's `strings.ToLower`: every rune of the string is replaced by its lower case. -/
def ToLower (table : Char → Char) (s : String) : String :=
  String.mk (s.data.map (toLowerRune table))

/-- The validation loop `for i, user := range cfg.Users` of `LoadConfig`; `i` is the index
of the head of the list. Returns the first error met, if any. -/
def validateUsers : Nat → List User → Option ConfigError
  | _, [] => none
  | i, user :: rest =>
    if user.Name = "" then some (ConfigError.userNoName i)
    else if user.Token = "" then some (ConfigError.userNoToken user.Name)
    else validateUsers (i + 1) rest

/-- The "Set defaults" block of `LoadConfig`. -/
def setDefaults (cfg : Config) : Config :=
  let cfg := if cfg.ListenAddr = "" then { cfg with ListenAddr := ":9101" } else cfg
  let cfg := if cfg.MetricsPath = "" then { cfg with MetricsPath := "/metrics" } else cfg
  let cfg := if cfg.PollInterval = 0 then { cfg with PollInterval := 60 } else cfg
  cfg

/-- The `switch ext` of `LoadConfig`: the decoder chosen for a lower-cased extension,
`none` in the `default` case. -/
def decode (env : Env) (path : String) (data : List UInt8) (ext : String) :
    Option (Except String Config) :=
  if ext = ".yaml" ∨ ext = ".yml" then some (env.yamlUnmarshal data)
  else if ext = ".toml" then some (env.tomlUnmarshal data)
  else if ext = ".hcl" then some (env.hclDecode path data)
  else none

/-- LoadConfig loads configuration from a file (YAML, TOML, or HCL based on extension). -/
def LoadConfig (env : Env) (path : String) : Except ConfigError Config :=
  match env.ReadFile path with
  | .error err => .error (ConfigError.readFailed err)
  | .ok data =>
    let ext := ToLower env.unicodeToLower (Ext path)
    match decode env path data ext with
    | none => .error (ConfigError.unsupportedFormat ext)
    | some (.error err) => .error (ConfigError.parseFailed err)
    | some (.ok cfg) =>
      let cfg := setDefaults cfg
      if cfg.Users.length = 0 then .error ConfigError.noUsers
      else
        match validateUsers 0 cfg.Users with
        | some err => .error err
        | none => .ok cfg

/-! ## Numbers of the collector -/

/-- Reduction of an integer to the range of a 64-bit Go `int`. -/
def wrapInt (x : Int) : Int := (x + 2 ^ 63) % 2 ^ 64 - 2 ^ 63

/-- Go's `a - b` on `int`. -/
def subInt (a b : Int) : Int := wrapInt (a - b)

/-- Go's conversion `float64(n)` of an integer: the nearest double, ties to the even
significand. Up to `2 ^ 53` in magnitude the conversion is exact; above, the lowest
bits are rounded away. The result is an integer and is returned as such. -/
def float64 (n : Int) : Int :=
  let a := n.natAbs
  if a ≤ 2 ^ 53 then n
  else
    let e := Nat.log2 a - 52
    let q := a / 2 ^ e
    let r := a % 2 ^ e
    let q := if 2 ^ e < 2 * r ∨ (2 * r = 2 ^ e ∧ q % 2 = 1) then q + 1 else q
    if n < 0 then -((q * 2 ^ e : Nat) : Int) else ((q * 2 ^ e : Nat) : Int)

/-! ## `internal/collector` -/

/-- The `github.Timestamp` of a rate: `Unix` is what its method `Unix()` returns. -/
structure Timestamp where
  Unix : Int
  deriving DecidableEq, Repr

/-- The `github.Rate` of one category. -/
structure Rate where
  Limit : Int
  Remaining : Int
  Reset : Timestamp
  deriving DecidableEq, Repr

/-- The fields of `github.RateLimits` the collector reads; each is a pointer, `none` is nil. -/
structure RateLimits where
  Core : Option Rate
  Search : Option Rate
  GraphQL : Option Rate
  IntegrationManifest : Option Rate
  deriving DecidableEq, Repr

/-- The `*github.Client` built in `NewCollector`: what distinguishes one client from
another is the access token of its static token source. -/
structure Client where
  AccessToken : String
  deriving DecidableEq, Repr

/-- A `prometheus.GaugeVec` with the single label "user": the children are keyed by the
value of that label. -/
structure GaugeVec where
  Name : String
  Help : String
  metrics : StrMap Int
  deriving DecidableEq, Repr

/-- The call `prometheus.NewGaugeVec(prometheus.GaugeOpts{Name, Help}, []string{"user"})`. -/
def NewGaugeVec (name help : String) : GaugeVec := { Name := name, Help := help, metrics := [] }

/-- The call `g.WithLabelValues(user).Set(v)`: creates the child if it does not exist
and sets its value. -/
def GaugeVec.Set (g : GaugeVec) (user : String) (v : Int) : GaugeVec :=
  { g with metrics := g.metrics.store user v }

/-- The call `g.Collect(ch)`: one sample (metric name, user label, value) per child. -/
def GaugeVec.Collect (g : GaugeVec) : List (String × String × Int) :=
  g.metrics.map (fun kv => (g.Name, kv.1, kv.2))

/-- Collector collects GitHub API rate limit metrics. -/
structure Collector where
  users : List User
  clients : StrMap Client
  coreLimit : GaugeVec
  coreRemaining : GaugeVec
  coreUsed : GaugeVec
  coreReset : GaugeVec
  searchLimit : GaugeVec
  searchRemaining : GaugeVec
  searchUsed : GaugeVec
  searchReset : GaugeVec
  graphqlLimit : GaugeVec
  graphqlRemaining : GaugeVec
  graphqlUsed : GaugeVec
  graphqlReset : GaugeVec
  integrationManifestLimit : GaugeVec
  integrationManifestRemaining : GaugeVec
  integrationManifestUsed : GaugeVec
  integrationManifestReset : GaugeVec
  deriving DecidableEq, Repr

/-- The loop "Initialize GitHub clients for each user" of `NewCollector`:
`c.clients[user.Name] = github.NewClient(...)` with the token of the user. -/
def initClients (users : List User) : StrMap Client :=
  users.foldl (fun clients user => clients.store user.Name { AccessToken := user.Token })
    StrMap.empty

/-- NewCollector creates a new GitHub rate limit collector. -/
def NewCollector (users : List User) : Collector :=
  { users := users
    clients := initClients users
    coreLimit := NewGaugeVec "github_rate_limit_core_limit" "GitHub API core rate limit"
    coreRemaining := NewGaugeVec "github_rate_limit_core_remaining"
      "GitHub API core rate limit remaining"
    coreUsed := NewGaugeVec "github_rate_limit_core_used" "GitHub API core rate limit used"
    coreReset := NewGaugeVec "github_rate_limit_core_reset_timestamp"
      "GitHub API core rate limit reset timestamp"
    searchLimit := NewGaugeVec "github_rate_limit_search_limit" "GitHub API search rate limit"
    searchRemaining := NewGaugeVec "github_rate_limit_search_remaining"
      "GitHub API search rate limit remaining"
    searchUsed := NewGaugeVec "github_rate_limit_search_used" "GitHub API search rate limit used"
    searchReset := NewGaugeVec "github_rate_limit_search_reset_timestamp"
      "GitHub API search rate limit reset timestamp"
    graphqlLimit := NewGaugeVec "github_rate_limit_graphql_limit" "GitHub API GraphQL rate limit"
    graphqlRemaining := NewGaugeVec "github_rate_limit_graphql_remaining"
      "GitHub API GraphQL rate limit remaining"
    graphqlUsed := NewGaugeVec "github_rate_limit_graphql_used"
      "GitHub API GraphQL rate limit used"
    graphqlReset := NewGaugeVec "github_rate_limit_graphql_reset_timestamp"
      "GitHub API GraphQL rate limit reset timestamp"
    integrationManifestLimit := NewGaugeVec "github_rate_limit_integration_manifest_limit"
      "GitHub API integration manifest rate limit"
    integrationManifestRemaining := NewGaugeVec "github_rate_limit_integration_manifest_remaining"
      "GitHub API integration manifest rate limit remaining"
    integrationManifestUsed := NewGaugeVec "github_rate_limit_integration_manifest_used"
      "GitHub API integration manifest rate limit used"
    integrationManifestReset :=
      NewGaugeVec "github_rate_limit_integration_manifest_reset_timestamp"
        "GitHub API integration manifest rate limit reset timestamp" }

/-- Collect implements prometheus.Collector: the samples of the sixteen gauge vectors,
in the order of the calls. -/
def Collector.Collect (c : Collector) : List (String × String × Int) :=
  c.coreLimit.Collect ++ c.coreRemaining.Collect ++ c.coreUsed.Collect ++ c.coreReset.Collect ++
  c.searchLimit.Collect ++ c.searchRemaining.Collect ++ c.searchUsed.Collect ++
  c.searchReset.Collect ++
  c.graphqlLimit.Collect ++ c.graphqlRemaining.Collect ++ c.graphqlUsed.Collect ++
  c.graphqlReset.Collect ++
  c.integrationManifestLimit.Collect ++ c.integrationManifestRemaining.Collect ++
  c.integrationManifestUsed.Collect ++ c.integrationManifestReset.Collect

/-- How a call of `updateUserRateLimits` ends: it returns, or it panics (a nil pointer is
dereferenced; nothing recovers the panic, so the process stops). Both carry the collector
as the call leaves it: the writes made before a panic have been made. -/
inductive Outcome where
  | returned (c : Collector)
  | panicked (c : Collector)
  deriving DecidableEq, Repr

/-- The collector at the end of the call. -/
def Outcome.collector : Outcome → Collector
  | .returned c => c
  | .panicked c => c

/-- The "Core rate limits" block. -/
def setCore (c : Collector) (name : String) : Option Rate → Collector
  | none => c
  | some r =>
    { c with
      coreLimit := c.coreLimit.Set name (float64 r.Limit)
      coreRemaining := c.coreRemaining.Set name (float64 r.Remaining)
      coreUsed := c.coreUsed.Set name (float64 (subInt r.Limit r.Remaining))
      coreReset := c.coreReset.Set name (float64 r.Reset.Unix) }

/-- The "Search rate limits" block. -/
def setSearch (c : Collector) (name : String) : Option Rate → Collector
  | none => c
  | some r =>
    { c with
      searchLimit := c.searchLimit.Set name (float64 r.Limit)
      searchRemaining := c.searchRemaining.Set name (float64 r.Remaining)
      searchUsed := c.searchUsed.Set name (float64 (subInt r.Limit r.Remaining))
      searchReset := c.searchReset.Set name (float64 r.Reset.Unix) }

/-- The "GraphQL rate limits" block. -/
def setGraphQL (c : Collector) (name : String) : Option Rate → Collector
  | none => c
  | some r =>
    { c with
      graphqlLimit := c.graphqlLimit.Set name (float64 r.Limit)
      graphqlRemaining := c.graphqlRemaining.Set name (float64 r.Remaining)
      graphqlUsed := c.graphqlUsed.Set name (float64 (subInt r.Limit r.Remaining))
      graphqlReset := c.graphqlReset.Set name (float64 r.Reset.Unix) }

/-- The "Integration Manifest rate limits" block. -/
def setIntegrationManifest (c : Collector) (name : String) : Option Rate → Collector
  | none => c
  | some r =>
    { c with
      integrationManifestLimit := c.integrationManifestLimit.Set name (float64 r.Limit)
      integrationManifestRemaining :=
        c.integrationManifestRemaining.Set name (float64 r.Remaining)
      integrationManifestUsed :=
        c.integrationManifestUsed.Set name (float64 (subInt r.Limit r.Remaining))
      integrationManifestReset := c.integrationManifestReset.Set name (float64 r.Reset.Unix) }

/-- The closing `log.Printf` of `updateUserRateLimits` reads `rateLimits.Core`,
`rateLimits.Search` and `rateLimits.GraphQL` without a nil check: its arguments can be
evaluated when the three are present, and only then. -/
def logArgsEvaluate (rateLimits : RateLimits) : Bool :=
  rateLimits.Core.isSome && rateLimits.Search.isSome && rateLimits.GraphQL.isSome

/-- The method `updateUserRateLimits`. `Get` is the remote call `client.RateLimit.Get(ctx)`:
an error, or the pointer to the rate limits (which the library returns as nil when the
answer has no resources). The lock is held from the first write to the end of the call,
so the call is one step on the collector. -/
def updateUserRateLimits (c : Collector)
    (Get : Client → Except String (Option RateLimits)) (user : User) : Outcome :=
  match c.clients.lookup user.Name with
  | none => .returned c
  | some client =>
    match Get client with
    | .error _ => .returned c
    | .ok none => .panicked c
    | .ok (some rateLimits) =>
      let c := setCore c user.Name rateLimits.Core
      let c := setSearch c user.Name rateLimits.Search
      let c := setGraphQL c user.Name rateLimits.GraphQL
      let c := setIntegrationManifest c user.Name rateLimits.IntegrationManifest
      if logArgsEvaluate rateLimits then .returned c else .panicked c

/-! ## Categories and facets -/

/-- The four rate-limit categories the collector exports. -/
inductive Category where
  | core | search | graphql | integrationManifest
  deriving DecidableEq, Repr

/-- The four gauges of a category. -/
inductive Facet where
  | limit | remaining | used | reset
  deriving DecidableEq, Repr

/-- The gauge vector of a category and facet. -/
def Collector.series (c : Collector) : Category → Facet → GaugeVec
  | .core, .limit => c.coreLimit
  | .core, .remaining => c.coreRemaining
  | .core, .used => c.coreUsed
  | .core, .reset => c.coreReset
  | .search, .limit => c.searchLimit
  | .search, .remaining => c.searchRemaining
  | .search, .used => c.searchUsed
  | .search, .reset => c.searchReset
  | .graphql, .limit => c.graphqlLimit
  | .graphql, .remaining => c.graphqlRemaining
  | .graphql, .used => c.graphqlUsed
  | .graphql, .reset => c.graphqlReset
  | .integrationManifest, .limit => c.integrationManifestLimit
  | .integrationManifest, .remaining => c.integrationManifestRemaining
  | .integrationManifest, .used => c.integrationManifestUsed
  | .integrationManifest, .reset => c.integrationManifestReset

/-- The stored value of a category and facet for an account, `none` while the series
of that account does not exist. -/
def Collector.value (c : Collector) (cat : Category) (facet : Facet) (name : String) :
    Option Int :=
  (c.series cat facet).metrics.lookup name

/-- The rate of a category in a response, `none` when the category is absent. -/
def RateLimits.rate (rateLimits : RateLimits) : Category → Option Rate
  | .core => rateLimits.Core
  | .search => rateLimits.Search
  | .graphql => rateLimits.GraphQL
  | .integrationManifest => rateLimits.IntegrationManifest

/-- The value the code derives from a rate for a facet. -/
def facetValue (r : Rate) : Facet → Int
  | .limit => float64 r.Limit
  | .remaining => float64 r.Remaining
  | .used => float64 (subInt r.Limit r.Remaining)
  | .reset => float64 r.Reset.Unix

/-- The exported samples that carry the label of one account. -/
def snapshotOf (c : Collector) (name : String) : List (String × String × Int) :=
  c.Collect.filter (fun sample => sample.2.1 = name)

/-- All four facets of all four categories of an account hold the values derived from
the response; a category the response lacks has no such values. -/
def holdsResponse (c : Collector) (name : String) (rateLimits : RateLimits) : Prop :=
  ∀ cat facet, ∃ r, rateLimits.rate cat = some r ∧ c.value cat facet name = some (facetValue r facet)

/-- Every stored value of an account is what it was before. -/
def unchangedFor (before after : Collector) (name : String) : Prop :=
  ∀ cat facet, after.value cat facet name = before.value cat facet name

/-! ## Sequences of operations -/

/-- One operation on the collector: the update of one account, with the remote API as it
answers during that call, or an export (`Collect`). Updates and exports exclude one another
through the lock, so a run of the program acts on the collector as a sequence of them. -/
inductive Op where
  | update (Get : Client → Except String (Option RateLimits)) (user : User)
  | collect

/-- The response an update of the account fetches: `none` when no client exists for the
account, when the remote call returns an error, and when it returns a nil pointer. -/
def fetched (c : Collector) (Get : Client → Except String (Option RateLimits)) (user : User) :
    Option RateLimits :=
  match c.clients.lookup user.Name with
  | none => none
  | some client =>
    match Get client with
    | .ok (some rateLimits) => some rateLimits
    | _ => none

/-- One operation on the collector. An export reads the gauges and leaves them as they are. -/
def step (c : Collector) : Op → Outcome
  | .update Get user => updateUserRateLimits c Get user
  | .collect => .returned c

/-- A sequence of operations, each on the collector the one before it left. A panic stops
the process: the operations after it do not run. -/
def run : Collector → List Op → Outcome
  | c, [] => .returned c
  | c, op :: rest =>
    match step c op with
    | .returned c' => run c' rest
    | .panicked c' => .panicked c'

/-- The stored entries of the collector: the metric name and the account of every sample
it exports. -/
def entries (c : Collector) : List (String × String) :=
  c.Collect.map (fun sample => (sample.1, sample.2.1))

/-! ## The polling interval -/

/-- The constant `time.Second`: a `time.Duration` counts nanoseconds in 64 bits. -/
def Second : Int := 1000000000

/-- The interval `main` passes to `StartPolling`, `time.Duration(cfg.PollInterval)*time.Second`:
a product of 64-bit integers, which wraps. -/
def pollDuration (cfg : Config) : Int := wrapInt (cfg.PollInterval * Second)

/-- A `*time.Ticker` with its period. -/
structure Ticker where
  period : Int
  deriving DecidableEq, Repr

/-- The call `time.NewTicker(d)`, the first statement of `StartPolling`: it panics with
"non-positive interval for NewTicker" when `d ≤ 0`, which is `none` here. -/
def NewTicker (d : Int) : Option Ticker :=
  if d ≤ 0 then none else some { period := d }

/-! ## Concrete inputs -/

/-- The account "alice" of the scenario. -/
def alice : User := { Name := "alice", Token := "t1" }

/-- The account "bob" of the scenario. -/
def bob : User := { Name := "bob", Token := "t2" }

/-- The core rate of the scenario. -/
def scenarioCore : Rate := { Limit := 5000, Remaining := 4990, Reset := { Unix := 1700000000 } }

/-- The search rate of the scenario. -/
def scenarioSearch : Rate := { Limit := 30, Remaining := 30, Reset := { Unix := 1700000060 } }

/-- A response that carries core and search only. -/
def coreAndSearch : RateLimits :=
  { Core := some scenarioCore, Search := some scenarioSearch, GraphQL := none,
    IntegrationManifest := none }

/-- A response that carries the four categories. -/
def fullResponse : RateLimits :=
  { Core := some scenarioCore, Search := some scenarioSearch
    GraphQL := some { Limit := 5000, Remaining := 5000, Reset := { Unix := 1700000000 } }
    IntegrationManifest := some { Limit := 5000, Remaining := 4999, Reset := { Unix := 1700000000 } } }

/-- A later response without the integration-manifest category, ten more core calls used. -/
def withoutIntegrationManifest : RateLimits :=
  { Core := some { Limit := 5000, Remaining := 4980, Reset := { Unix := 1700003600 } }
    Search := some scenarioSearch
    GraphQL := some { Limit := 5000, Remaining := 5000, Reset := { Unix := 1700003600 } }
    IntegrationManifest := none }

/-- A remote API that answers every client with the given response. -/
def answers (rateLimits : RateLimits) : Client → Except String (Option RateLimits) :=
  fun _ => .ok (some rateLimits)

/-- A remote API that answers alice (token "t1") and times out for every other client. -/
def bobTimesOut : Client → Except String (Option RateLimits) :=
  fun client => if client.AccessToken = "t1" then .ok (some fullResponse)
    else .error "context deadline exceeded"

/-- The collector of alice after one update with the full response. -/
def aliceWarm : Collector :=
  (updateUserRateLimits (NewCollector [alice, bob]) (answers fullResponse) alice).collector

/-- The lower-cased extensions `LoadConfig` has a decoder for. -/
def supportedExts : List String := [".yaml", ".yml", ".toml", ".hcl"]

/-- The bytes of an ASCII text. -/
def bytesOf (text : String) : List UInt8 := text.data.map (fun ch => ch.toNat.toUInt8)

/-- The part of `unicode.ToLower` for the Latin-1 letters: U+00C0..U+00DE, the
multiplication sign U+00D7 apart, are mapped 32 code points up; every other rune is left
as it is. It stands for the case tables in the environments below. -/
def latin1ToLower (ch : Char) : Char :=
  if 192 ≤ ch.toNat ∧ ch.toNat ≤ 222 ∧ ch.toNat ≠ 215 then Char.ofNat (ch.toNat + 32) else ch

/-- An environment with one file: reading any other path fails, and each decoder accepts
the content of the file as the given configuration and rejects every other content. -/
def oneFile (path : String) (content : List UInt8) (parsed : Config) : Env :=
  { ReadFile := fun p =>
      if p = path then .ok content else .error "open: no such file or directory"
    yamlUnmarshal := fun data => if data = content then .ok parsed else .error "yaml: bad input"
    tomlUnmarshal := fun data => if data = content then .ok parsed else .error "toml: bad input"
    hclDecode := fun _ data => if data = content then .ok parsed else .error "hcl: bad input"
    unicodeToLower := latin1ToLower }

/-- An environment with one file whose content every decoder rejects. -/
def oneBadFile (path : String) (content : List UInt8) : Env :=
  { ReadFile := fun p =>
      if p = path then .ok content else .error "open: no such file or directory"
    yamlUnmarshal := fun _ => .error "yaml: bad input"
    tomlUnmarshal := fun _ => .error "toml: bad input"
    hclDecode := fun _ _ => .error "hcl: bad input"
    unicodeToLower := latin1ToLower }

/-- The document of `TestLoadConfig_Defaults`: one user, no other field. -/
def defaultsDoc : Config :=
  { Users := [{ Name := "test-user", Token := "test-token" }], ListenAddr := "",
    MetricsPath := "", PollInterval := 0 }

/-- The document of `TestLoadConfig_YAML`: one user and the three settings. -/
def settingsDoc : Config :=
  { Users := [{ Name := "test-user", Token := "test-token" }], ListenAddr := ":9102",
    MetricsPath := "/test-metrics", PollInterval := 30 }

/-- The document of `TestLoadConfig_NoUsers`: a listen address and no user. -/
def noUsersDoc : Config :=
  { Users := [], ListenAddr := ":9101", MetricsPath := "", PollInterval := 0 }

/-- The document of `TestLoadConfig_MultipleUsers`. -/
def threeUsersDoc : Config :=
  { Users := [{ Name := "user1", Token := "token1" }, { Name := "user2", Token := "token2" },
      { Name := "user3", Token := "token3" }],
    ListenAddr := "", MetricsPath := "", PollInterval := 0 }

/-- A document with a negative poll interval. -/
def negativeIntervalDoc : Config :=
  { Users := [{ Name := "test-user", Token := "test-token" }], ListenAddr := "",
    MetricsPath := "", PollInterval := -5 }

/-- A document with a poll interval of 9223372037 seconds, more than 64 bits of
nanoseconds hold. -/
def hugeIntervalDoc : Config :=
  { Users := [{ Name := "test-user", Token := "test-token" }], ListenAddr := "",
    MetricsPath := "", PollInterval := 9223372037 }

/-- The configuration `LoadConfig` returns for `negativeIntervalDoc`. -/
def negativeIntervalLoaded : Config :=
  { Users := [{ Name := "test-user", Token := "test-token" }], ListenAddr := ":9101",
    MetricsPath := "/metrics", PollInterval := -5 }

/-- The configuration `LoadConfig` returns for `hugeIntervalDoc`. -/
def hugeIntervalLoaded : Config :=
  { Users := [{ Name := "test-user", Token := "test-token" }], ListenAddr := ":9101",
    MetricsPath := "/metrics", PollInterval := 9223372037 }

/-- The updates of one pass over alice and bob, then an export: alice is answered with the
full response, the call for bob times out. -/
def onePass : List Op :=
  [Op.update bobTimesOut alice, Op.update bobTimesOut bob, Op.collect]

/-! ## Lemmas on maps -/

namespace StrMap
variable {V : Type}

theorem lookup_store_self (m : StrMap V) (k : String) (v : V) :
    (m.store k v).lookup k = some v := by
  induction m with
  | nil => simp [store, lookup]
  | cons kv rest ih =>
    obtain ⟨k', v'⟩ := kv
    by_cases h : k' = k
    · simp [store, lookup, h]
    · simp [store, lookup, h, ih]

theorem lookup_store_ne (m : StrMap V) {k k' : String} (v : V) (h : k' ≠ k) :
    (m.store k v).lookup k' = m.lookup k' := by
  induction m with
  | nil =>
    have h' : ¬ k = k' := fun e => h e.symm
    simp [store, lookup, h']
  | cons kv rest ih =>
    obtain ⟨k0, v0⟩ := kv
    by_cases h0 : k0 = k
    · subst h0
      have h' : ¬ k0 = k' := fun e => h e.symm
      simp [store, lookup, h']
    · by_cases h1 : k0 = k'
      · subst h1
        simp [store, lookup, h0]
      · simp [store, lookup, h0, h1, ih]

end StrMap

/-! ## Lemmas on numbers -/

theorem float64_exact {n : Int} (h : n.natAbs ≤ 2 ^ 53) : float64 n = n := by
  unfold float64
  exact if_pos h

theorem subInt_exact {a b : Int} (hlo : -(2 ^ 63) ≤ a - b) (hhi : a - b < 2 ^ 63) :
    subInt a b = a - b := by
  unfold subInt wrapInt
  have h : (a - b + 2 ^ 63) % 2 ^ 64 = a - b + 2 ^ 63 :=
    Int.emod_eq_of_lt (by omega) (by omega)
  omega

/-- Above `2 ^ 53` the conversion rounds: `2 ^ 53 + 1` becomes `2 ^ 53`. -/
theorem float64_rounds_above_exact_range :
    float64 9007199254740993 = 9007199254740992 := by
  have hlog : Nat.log2 9007199254740993 = 53 := by
    rw [Nat.log2_eq_log_two]
    exact (Nat.log_eq_iff (Or.inl (by norm_num))).2 ⟨by norm_num, by norm_num⟩
  have habs : (9007199254740993 : Int).natAbs = 9007199254740993 := rfl
  unfold float64
  simp only [habs, hlog]
  norm_num

/-! ## Lemmas on the update -/

theorem value_after_blocks (c : Collector) (name : String) (rateLimits : RateLimits)
    (cat : Category) (facet : Facet) (n : String) :
    (setIntegrationManifest (setGraphQL (setSearch (setCore c name rateLimits.Core) name
      rateLimits.Search) name rateLimits.GraphQL) name rateLimits.IntegrationManifest).value
        cat facet n =
      if n = name then
        (match rateLimits.rate cat with
          | some r => some (facetValue r facet)
          | none => c.value cat facet n)
      else c.value cat facet n := by
  obtain ⟨co, se, gr, im⟩ := rateLimits
  by_cases hn : n = name
  · subst hn
    cases co <;> cases se <;> cases gr <;> cases im <;> cases cat <;> cases facet <;>
      simp [setCore, setSearch, setGraphQL, setIntegrationManifest, Collector.value,
        Collector.series, RateLimits.rate, facetValue, GaugeVec.Set, StrMap.lookup_store_self]
  · cases co <;> cases se <;> cases gr <;> cases im <;> cases cat <;> cases facet <;>
      simp [setCore, setSearch, setGraphQL, setIntegrationManifest, Collector.value,
        Collector.series, RateLimits.rate, facetValue, GaugeVec.Set, hn,
        StrMap.lookup_store_ne _ _ hn]

/-- The collector a successful fetch leaves, whether the call then returns or panics. -/
theorem collector_of_success (c : Collector) (Get : Client → Except String (Option RateLimits))
    (user : User) (client : Client) (rateLimits : RateLimits)
    (hclient : c.clients.lookup user.Name = some client)
    (hget : Get client = .ok (some rateLimits)) :
    (updateUserRateLimits c Get user).collector =
      setIntegrationManifest (setGraphQL (setSearch (setCore c user.Name rateLimits.Core)
        user.Name rateLimits.Search) user.Name rateLimits.GraphQL) user.Name
        rateLimits.IntegrationManifest := by
  unfold updateUserRateLimits
  simp only [hclient, hget]
  split <;> rfl

/-- Without a successful fetch of a response the collector is left as it was. -/
theorem collector_of_failure (c : Collector) (Get : Client → Except String (Option RateLimits))
    (user : User)
    (h : ∀ client rateLimits, c.clients.lookup user.Name = some client →
      Get client ≠ .ok (some rateLimits)) :
    (updateUserRateLimits c Get user).collector = c := by
  unfold updateUserRateLimits
  cases hl : c.clients.lookup user.Name with
  | none => rfl
  | some client =>
    simp only
    cases hg : Get client with
    | error e => rfl
    | ok o =>
      cases o with
      | none => rfl
      | some rateLimits => exact absurd hg (h client rateLimits hl)

/-! ## The update of one account -/

/-- C1. After a successful fetch for an account, every category present in the response has
its four gauges for that account set from the response: limit to `float64(Limit)`,
remaining to `float64(Remaining)`, used to `float64(Limit - Remaining)` and reset to
`float64(Reset.Unix())`. The values are those of the collector as the call leaves it.
Whenever `0 ≤ Remaining ≤ Limit ≤ 2 ^ 53` and the reset time is at most `2 ^ 53` in
magnitude, the four gauges are exactly the integers limit, remaining, limit - remaining
and the epoch seconds of the reset time. -/
theorem updateUserRateLimits_stores_response (c : Collector)
    (Get : Client → Except String (Option RateLimits)) (user : User) (client : Client)
    (rateLimits : RateLimits) (cat : Category) (r : Rate)
    (hclient : c.clients.lookup user.Name = some client)
    (hget : Get client = .ok (some rateLimits))
    (hcat : rateLimits.rate cat = some r) :
    ((updateUserRateLimits c Get user).collector.value cat .limit user.Name
        = some (float64 r.Limit) ∧
      (updateUserRateLimits c Get user).collector.value cat .remaining user.Name
        = some (float64 r.Remaining) ∧
      (updateUserRateLimits c Get user).collector.value cat .used user.Name
        = some (float64 (subInt r.Limit r.Remaining)) ∧
      (updateUserRateLimits c Get user).collector.value cat .reset user.Name
        = some (float64 r.Reset.Unix)) ∧
    (0 ≤ r.Remaining → r.Remaining ≤ r.Limit → r.Limit ≤ 2 ^ 53 →
      r.Reset.Unix.natAbs ≤ 2 ^ 53 →
      (updateUserRateLimits c Get user).collector.value cat .limit user.Name = some r.Limit ∧
      (updateUserRateLimits c Get user).collector.value cat .remaining user.Name
        = some r.Remaining ∧
      (updateUserRateLimits c Get user).collector.value cat .used user.Name
        = some (r.Limit - r.Remaining) ∧
      (updateUserRateLimits c Get user).collector.value cat .reset user.Name
        = some r.Reset.Unix) := by
  have hv : ∀ facet, (updateUserRateLimits c Get user).collector.value cat facet user.Name
      = some (facetValue r facet) := by
    intro facet
    rw [collector_of_success c Get user client rateLimits hclient hget, value_after_blocks]
    simp [hcat]
  refine ⟨⟨hv .limit, hv .remaining, hv .used, hv .reset⟩, ?_⟩
  intro h0 h1 h2 h3
  have e1 : float64 r.Limit = r.Limit := float64_exact (by omega)
  have e2 : float64 r.Remaining = r.Remaining := float64_exact (by omega)
  have e3 : subInt r.Limit r.Remaining = r.Limit - r.Remaining :=
    subInt_exact (by omega) (by omega)
  have e4 : float64 (r.Limit - r.Remaining) = r.Limit - r.Remaining :=
    float64_exact (by omega)
  have e5 : float64 r.Reset.Unix = r.Reset.Unix := float64_exact h3
  refine ⟨?_, ?_, ?_, ?_⟩
  · rw [hv .limit]; simp [facetValue, e1]
  · rw [hv .remaining]; simp [facetValue, e2]
  · rw [hv .used]; simp [facetValue, e3, e4]
  · rw [hv .reset]; simp [facetValue, e5]

/-- The scenario of C1: alice, a response with core (5000, 4990, 1700000000) and search
(30, 30, 1700000060). The core gauges of alice read limit 5000, remaining 4990, used 10 and
reset 1700000000, and the search gauge of alice reads used 0. -/
theorem updateUserRateLimits_stores_response_witness :
    (NewCollector [alice, bob]).clients.lookup alice.Name = some { AccessToken := "t1" } ∧
    answers coreAndSearch { AccessToken := "t1" } = .ok (some coreAndSearch) ∧
    coreAndSearch.rate .core = some scenarioCore ∧
    ((updateUserRateLimits (NewCollector [alice, bob]) (answers coreAndSearch)
      alice).collector.value .core .limit "alice" = some 5000 ∧
    (updateUserRateLimits (NewCollector [alice, bob]) (answers coreAndSearch)
      alice).collector.value .core .remaining "alice" = some 4990 ∧
    (updateUserRateLimits (NewCollector [alice, bob]) (answers coreAndSearch)
      alice).collector.value .core .used "alice" = some 10 ∧
    (updateUserRateLimits (NewCollector [alice, bob]) (answers coreAndSearch)
      alice).collector.value .core .reset "alice" = some 1700000000) ∧
    (updateUserRateLimits (NewCollector [alice, bob]) (answers coreAndSearch)
      alice).collector.value .search .used "alice" = some 0 :=
  ⟨rfl, rfl, rfl,
    (updateUserRateLimits_stores_response (NewCollector [alice, bob]) (answers coreAndSearch)
      alice { AccessToken := "t1" } coreAndSearch .core scenarioCore rfl rfl rfl).1,
    (updateUserRateLimits_stores_response (NewCollector [alice, bob]) (answers coreAndSearch)
      alice { AccessToken := "t1" } coreAndSearch .search scenarioSearch rfl rfl rfl).1.2.2.1⟩

/-- C2. The failing input of the claim: alice, a successful response that carries core and
search only. The call writes the gauges of core and search and leaves those of graphql
and integration-manifest absent, then panics: the closing `log.Printf` dereferences
`rateLimits.GraphQL`, which is nil. It does not return. -/
theorem updateUserRateLimits_core_and_search_panics :
    (∃ c, updateUserRateLimits (NewCollector [alice, bob]) (answers coreAndSearch) alice
      = Outcome.panicked c) ∧
    (∀ c, updateUserRateLimits (NewCollector [alice, bob]) (answers coreAndSearch) alice
      ≠ Outcome.returned c) ∧
    (updateUserRateLimits (NewCollector [alice, bob]) (answers coreAndSearch)
      alice).collector.value .core .remaining "alice" = some 4990 ∧
    (updateUserRateLimits (NewCollector [alice, bob]) (answers coreAndSearch)
      alice).collector.value .graphql .limit "alice" = none := by
  refine ⟨⟨_, rfl⟩, ?_, rfl, rfl⟩
  intro c h
  have hp : ∃ c', updateUserRateLimits (NewCollector [alice, bob]) (answers coreAndSearch) alice
      = Outcome.panicked c' := ⟨_, rfl⟩
  obtain ⟨c', hc'⟩ := hp
  rw [hc'] at h
  cases h

/-- When the fetch succeeds with a response, the call returns exactly when core, search
and graphql are all present, and panics otherwise. -/
theorem updateUserRateLimits_returns_iff (c : Collector)
    (Get : Client → Except String (Option RateLimits)) (user : User) (client : Client)
    (rateLimits : RateLimits)
    (hclient : c.clients.lookup user.Name = some client)
    (hget : Get client = .ok (some rateLimits)) :
    (∃ c', updateUserRateLimits c Get user = Outcome.returned c') ↔
      (rateLimits.Core ≠ none ∧ rateLimits.Search ≠ none ∧ rateLimits.GraphQL ≠ none) := by
  unfold updateUserRateLimits
  simp only [hclient, hget]
  obtain ⟨co, se, gr, im⟩ := rateLimits
  cases co <;> cases se <;> cases gr <;> simp [logArgsEvaluate]

/-- C3. When no client exists for the account, or the remote call of its client returns an
error, the call returns and the collector is the one it was given: each of the sixteen
gauges holds for every account what it held before (an absent series stays absent), and
the exported samples of the account are the same. -/
theorem updateUserRateLimits_failure_unchanged (c : Collector)
    (Get : Client → Except String (Option RateLimits)) (user : User)
    (h : c.clients.lookup user.Name = none ∨
      ∃ client err, c.clients.lookup user.Name = some client ∧ Get client = .error err) :
    updateUserRateLimits c Get user = Outcome.returned c ∧
    (∀ cat facet name, (updateUserRateLimits c Get user).collector.value cat facet name
      = c.value cat facet name) ∧
    snapshotOf (updateUserRateLimits c Get user).collector user.Name = snapshotOf c user.Name := by
  have hr : updateUserRateLimits c Get user = Outcome.returned c := by
    unfold updateUserRateLimits
    rcases h with h | ⟨client, err, hl, hg⟩
    · simp only [h]
    · simp only [hl, hg]
  rw [hr]
  exact ⟨rfl, fun _ _ _ => rfl, rfl⟩

/-- The scenario of C3: the remote call for bob times out. On a fresh collector bob keeps
no series; on a collector that holds values for alice nothing changes either. -/
theorem updateUserRateLimits_failure_unchanged_witness :
    ((NewCollector [alice, bob]).clients.lookup bob.Name = none ∨
      ∃ client err, (NewCollector [alice, bob]).clients.lookup bob.Name = some client ∧
        bobTimesOut client = .error err) ∧
    (updateUserRateLimits (NewCollector [alice, bob]) bobTimesOut bob
        = Outcome.returned (NewCollector [alice, bob]) ∧
      (∀ cat facet name,
        (updateUserRateLimits (NewCollector [alice, bob]) bobTimesOut bob).collector.value
          cat facet name = (NewCollector [alice, bob]).value cat facet name) ∧
      snapshotOf (updateUserRateLimits (NewCollector [alice, bob]) bobTimesOut bob).collector
        bob.Name = snapshotOf (NewCollector [alice, bob]) bob.Name) ∧
    snapshotOf (updateUserRateLimits (NewCollector [alice, bob]) bobTimesOut bob).collector
      "bob" = [] :=
  ⟨Or.inr ⟨{ AccessToken := "t2" }, "context deadline exceeded", rfl, rfl⟩,
    updateUserRateLimits_failure_unchanged (NewCollector [alice, bob]) bobTimesOut bob
      (Or.inr ⟨{ AccessToken := "t2" }, "context deadline exceeded", rfl, rfl⟩),
    rfl⟩

theorem collect_filter_set_ne (g : GaugeVec) (k : String) (v : Int) (n : String) (h : n ≠ k) :
    (g.Set k v).Collect.filter (fun sample => sample.2.1 = n)
      = g.Collect.filter (fun sample => sample.2.1 = n) := by
  obtain ⟨name, help, metrics⟩ := g
  simp only [GaugeVec.Set, GaugeVec.Collect]
  induction metrics with
  | nil =>
    have h' : ¬ k = n := fun e => h e.symm
    simp [StrMap.store, h']
  | cons kv rest ih =>
    obtain ⟨k0, v0⟩ := kv
    by_cases h0 : k0 = k
    · subst h0
      have h' : ¬ k0 = n := fun e => h e.symm
      simp [StrMap.store, h']
    · simp only [StrMap.store, h0, if_false, List.map_cons, List.filter_cons, ih]

theorem snapshotOf_after_blocks (c : Collector) (name : String) (rateLimits : RateLimits)
    (n : String) (h : n ≠ name) :
    snapshotOf (setIntegrationManifest (setGraphQL (setSearch (setCore c name rateLimits.Core)
      name rateLimits.Search) name rateLimits.GraphQL) name rateLimits.IntegrationManifest) n
      = snapshotOf c n := by
  obtain ⟨co, se, gr, im⟩ := rateLimits
  cases co <;> cases se <;> cases gr <;> cases im <;>
    simp only [setCore, setSearch, setGraphQL, setIntegrationManifest, snapshotOf,
      Collector.Collect, List.filter_append, collect_filter_set_ne _ _ _ _ h]

/-- C4, as the claim states it, fails. Alice holds values from a full response; the next
response lacks the integration-manifest category. The call returns, and afterwards alice
neither holds response values for all four categories nor keeps all her previous
values: core is replaced, integration-manifest is not. -/
theorem updateUserRateLimits_not_all_or_nothing :
    (∃ c, updateUserRateLimits aliceWarm (answers withoutIntegrationManifest) alice
      = Outcome.returned c) ∧
    ¬ (holdsResponse
        (updateUserRateLimits aliceWarm (answers withoutIntegrationManifest) alice).collector
        "alice" withoutIntegrationManifest ∨
      unchangedFor aliceWarm
        (updateUserRateLimits aliceWarm (answers withoutIntegrationManifest) alice).collector
        "alice") := by
  refine ⟨⟨_, rfl⟩, ?_⟩
  rintro (h | h)
  · obtain ⟨r, hr, _⟩ := h .integrationManifest .limit
    have hnone : withoutIntegrationManifest.rate .integrationManifest = none := rfl
    rw [hnone] at hr
    cases hr
  · exact absurd (h .core .remaining) (by decide)

/-- C4, amended. For every update of an account, whatever the outcome and the response.
When no response is fetched (no client, an error, a nil response), every stored value of
the account is what it was before. When a response is fetched, every category the response
carries has its four gauges for the account replaced by the values derived from the
response, and every category the response lacks keeps its four gauges for the account as
they were; so a response that carries the four categories leaves all four gauges of all
four categories holding the values derived from it. Replacement is whole per category. -/
theorem updateUserRateLimits_category_all_or_nothing (c : Collector)
    (Get : Client → Except String (Option RateLimits)) (user : User) :
    ((∀ client rateLimits, c.clients.lookup user.Name = some client →
        Get client ≠ .ok (some rateLimits)) →
      unchangedFor c (updateUserRateLimits c Get user).collector user.Name) ∧
    (∀ client rateLimits, c.clients.lookup user.Name = some client →
      Get client = .ok (some rateLimits) →
      (∀ cat r, rateLimits.rate cat = some r → ∀ facet,
        (updateUserRateLimits c Get user).collector.value cat facet user.Name
          = some (facetValue r facet)) ∧
      (∀ cat, rateLimits.rate cat = none → ∀ facet,
        (updateUserRateLimits c Get user).collector.value cat facet user.Name
          = c.value cat facet user.Name) ∧
      ((∀ cat, rateLimits.rate cat ≠ none) →
        holdsResponse (updateUserRateLimits c Get user).collector user.Name rateLimits)) := by
  constructor
  · intro h cat facet
    rw [collector_of_failure c Get user h]
  · intro client rateLimits hl hg
    have hsome : ∀ cat r, rateLimits.rate cat = some r → ∀ facet,
        (updateUserRateLimits c Get user).collector.value cat facet user.Name
          = some (facetValue r facet) := by
      intro cat r hr facet
      rw [collector_of_success c Get user client rateLimits hl hg, value_after_blocks]
      simp [hr]
    refine ⟨hsome, ?_, ?_⟩
    · intro cat hr facet
      rw [collector_of_success c Get user client rateLimits hl hg, value_after_blocks]
      simp [hr]
    · intro hall cat facet
      cases hr : rateLimits.rate cat with
      | none => exact absurd hr (hall cat)
      | some r => exact ⟨r, rfl, hsome cat r hr facet⟩

/-- The inputs of C4: alice holds the values of a full response and is updated with a
response without integration-manifest: core is replaced (remaining 4980) and
integration-manifest keeps its values (remaining 4999). On a fresh collector the full
response leaves every gauge of alice holding its values. -/
theorem updateUserRateLimits_category_all_or_nothing_witness :
    aliceWarm.clients.lookup alice.Name = some { AccessToken := "t1" } ∧
    answers withoutIntegrationManifest { AccessToken := "t1" }
      = .ok (some withoutIntegrationManifest) ∧
    (updateUserRateLimits aliceWarm (answers withoutIntegrationManifest)
      alice).collector.value .core .remaining "alice" = some 4980 ∧
    (updateUserRateLimits aliceWarm (answers withoutIntegrationManifest)
      alice).collector.value .integrationManifest .remaining "alice" = some 4999 ∧
    holdsResponse (updateUserRateLimits (NewCollector [alice, bob]) (answers fullResponse)
      alice).collector "alice" fullResponse :=
  ⟨rfl, rfl,
    ((updateUserRateLimits_category_all_or_nothing aliceWarm
      (answers withoutIntegrationManifest) alice).2 { AccessToken := "t1" }
      withoutIntegrationManifest rfl rfl).1 .core
      { Limit := 5000, Remaining := 4980, Reset := { Unix := 1700003600 } } rfl .remaining,
    ((updateUserRateLimits_category_all_or_nothing aliceWarm
      (answers withoutIntegrationManifest) alice).2 { AccessToken := "t1" }
      withoutIntegrationManifest rfl rfl).2.1 .integrationManifest rfl .remaining,
    ((updateUserRateLimits_category_all_or_nothing (NewCollector [alice, bob])
      (answers fullResponse) alice).2 { AccessToken := "t1" } fullResponse rfl rfl).2.2
      (by intro cat; cases cat <;> decide)⟩

/-- C8. An update of one account, whatever its outcome, leaves every gauge value of every
other account name as it was, and the exported samples of every other account name are the
same: the call writes only series labelled with the name of the account it updates. -/
theorem updateUserRateLimits_other_accounts_unchanged (c : Collector)
    (Get : Client → Except String (Option RateLimits)) (user : User) (other : String)
    (hne : other ≠ user.Name) :
    (∀ cat facet, (updateUserRateLimits c Get user).collector.value cat facet other
      = c.value cat facet other) ∧
    snapshotOf (updateUserRateLimits c Get user).collector other = snapshotOf c other := by
  by_cases h : ∃ client rateLimits, c.clients.lookup user.Name = some client ∧
      Get client = .ok (some rateLimits)
  · obtain ⟨client, rateLimits, hl, hg⟩ := h
    rw [collector_of_success c Get user client rateLimits hl hg]
    refine ⟨?_, snapshotOf_after_blocks c user.Name rateLimits other hne⟩
    intro cat facet
    rw [value_after_blocks]
    simp [hne]
  · rw [collector_of_failure c Get user]
    · exact ⟨fun _ _ => rfl, rfl⟩
    · intro client rateLimits hl hg
      exact h ⟨client, rateLimits, hl, hg⟩

/-- The scenario of C8: alice holds values, then bob is updated with a full response. The
values and the exported samples of alice are the same afterwards. -/
theorem updateUserRateLimits_other_accounts_unchanged_witness :
    "alice" ≠ bob.Name ∧
    ((∀ cat facet, (updateUserRateLimits aliceWarm (answers fullResponse) bob).collector.value
        cat facet "alice" = aliceWarm.value cat facet "alice") ∧
      snapshotOf (updateUserRateLimits aliceWarm (answers fullResponse) bob).collector "alice"
        = snapshotOf aliceWarm "alice") ∧
    aliceWarm.value .core .used "alice" = some 10 ∧
    (updateUserRateLimits aliceWarm (answers fullResponse) bob).collector.value
      .core .used "bob" = some 10 :=
  ⟨by decide,
    updateUserRateLimits_other_accounts_unchanged aliceWarm (answers fullResponse) bob "alice"
      (by decide),
    rfl, rfl⟩

/-! ## The client pool -/

namespace StrMap
variable {V : Type}

theorem mem_keys_store (m : StrMap V) (k : String) (v : V) (n : String) :
    n ∈ (m.store k v).keys ↔ n = k ∨ n ∈ m.keys := by
  induction m with
  | nil => simp [store, keys]
  | cons kv rest ih =>
    obtain ⟨k0, v0⟩ := kv
    by_cases h0 : k0 = k
    · subst h0
      simp [store, keys]
    · have ih' : n ∈ List.map Prod.fst (store rest k v) ↔ n = k ∨ n ∈ List.map Prod.fst rest := ih
      simp only [store, h0, if_false, keys, List.map_cons, List.mem_cons, ih']
      tauto

theorem nodup_keys_store (m : StrMap V) (k : String) (v : V) (h : m.keys.Nodup) :
    (m.store k v).keys.Nodup := by
  induction m with
  | nil => simp [store, keys]
  | cons kv rest ih =>
    obtain ⟨k0, v0⟩ := kv
    have hrest : (keys rest).Nodup := (List.nodup_cons.1 h).2
    have hk0 : k0 ∉ keys rest := (List.nodup_cons.1 h).1
    by_cases h0 : k0 = k
    · subst h0
      simpa [store, keys] using h
    · have hstore : (store ((k0, v0) :: rest) k v).keys = k0 :: (store rest k v).keys := by
        simp [store, h0, keys]
      rw [hstore]
      refine List.nodup_cons.2 ⟨?_, ih hrest⟩
      intro hmem
      rcases (mem_keys_store rest k v k0).1 hmem with h | h
      · exact h0 h
      · exact hk0 h

theorem mem_keys_iff_lookup (m : StrMap V) (n : String) :
    n ∈ m.keys ↔ (m.lookup n).isSome = true := by
  induction m with
  | nil => simp [keys, lookup]
  | cons kv rest ih =>
    obtain ⟨k0, v0⟩ := kv
    have ih' : n ∈ List.map Prod.fst rest ↔ (lookup rest n).isSome = true := ih
    by_cases h0 : k0 = n
    · simp [keys, lookup, h0]
    · have h0' : ¬ n = k0 := fun e => h0 e.symm
      simp [keys, lookup, h0, h0', ih']

end StrMap

theorem foldl_store_lookup (users : List User) (m : StrMap Client) (n : String) :
    (users.foldl (fun clients user => clients.store user.Name { AccessToken := user.Token })
        m).lookup n =
      match users.reverse.find? (fun u => u.Name = n) with
      | some u => some { AccessToken := u.Token }
      | none => m.lookup n := by
  induction users generalizing m with
  | nil => simp
  | cons u rest ih =>
    rw [List.foldl_cons, ih, List.reverse_cons, List.find?_append]
    cases hfind : rest.reverse.find? (fun u => decide (u.Name = n)) with
    | some u' => simp
    | none =>
      by_cases hu : u.Name = n
      · subst hu
        simp [StrMap.lookup_store_self]
      · have hu' : n ≠ u.Name := fun e => hu e.symm
        simp [hu, StrMap.lookup_store_ne _ _ hu']

theorem foldl_store_nodup (users : List User) (m : StrMap Client) (h : m.keys.Nodup) :
    (users.foldl (fun clients user => clients.store user.Name { AccessToken := user.Token })
        m).keys.Nodup := by
  induction users generalizing m with
  | nil => simpa using h
  | cons u rest ih =>
    rw [List.foldl_cons]
    exact ih _ (StrMap.nodup_keys_store m u.Name _ h)

/-- C9. For every list of accounts, the client pool `NewCollector` builds has as keys
exactly the names of the list, each key once (so as many clients as distinct names), and the
client of a name is the one built from the token of the last account of the list with that
name. `NewCollector` is a total function: construction does not fail, duplicates included. -/
theorem NewCollector_clients (users : List User) :
    (∀ n, n ∈ (NewCollector users).clients.keys ↔ n ∈ users.map User.Name) ∧
    (NewCollector users).clients.keys.Nodup ∧
    (NewCollector users).clients.keys.length = (users.map User.Name).dedup.length ∧
    (∀ n, (NewCollector users).clients.lookup n
      = (users.reverse.find? (fun u => u.Name = n)).map
          (fun u => { AccessToken := u.Token })) := by
  have hlookup : ∀ n, (NewCollector users).clients.lookup n
      = (users.reverse.find? (fun u => u.Name = n)).map
          (fun u => { AccessToken := u.Token }) := by
    intro n
    show (initClients users).lookup n = _
    unfold initClients
    rw [foldl_store_lookup]
    cases users.reverse.find? (fun u => decide (u.Name = n)) <;> simp [StrMap.empty, StrMap.lookup]
  have hnodup : (NewCollector users).clients.keys.Nodup := by
    show (initClients users).keys.Nodup
    unfold initClients
    exact foldl_store_nodup users StrMap.empty (by simp [StrMap.empty, StrMap.keys])
  have hmem : ∀ n, n ∈ (NewCollector users).clients.keys ↔ n ∈ users.map User.Name := by
    intro n
    rw [StrMap.mem_keys_iff_lookup, hlookup]
    cases hfind : users.reverse.find? (fun u => decide (u.Name = n)) with
    | some u =>
      have hu := List.find?_some hfind
      have hmem := List.mem_of_find?_eq_some hfind
      simp only [Option.map_some', Option.isSome_some, true_iff, List.mem_map]
      exact ⟨u, List.mem_reverse.1 hmem, by simpa using hu⟩
    | none =>
      simp only [Option.map_none', Option.isSome_none, Bool.false_eq_true, false_iff,
        List.mem_map, not_exists, not_and]
      intro u hmem hname
      have := List.find?_eq_none.1 hfind u (List.mem_reverse.2 hmem)
      simp [hname] at this
  refine ⟨hmem, hnodup, ?_, hlookup⟩
  apply List.Perm.length_eq
  rw [List.perm_ext_iff_of_nodup hnodup (List.nodup_dedup _)]
  intro n
  rw [hmem, List.mem_dedup]

/-- The duplicate-name case of C9: two accounts named "alice"; the pool holds one client,
built from the token of the later one. -/
theorem NewCollector_duplicate_names :
    (NewCollector [{ Name := "alice", Token := "t1" }, { Name := "bob", Token := "t2" },
      { Name := "alice", Token := "t3" }]).clients
      = [("alice", { AccessToken := "t3" }), ("bob", { AccessToken := "t2" })] := by
  rfl

/-! ## Loading the configuration -/

theorem validateUsers_eq_none_iff (i : Nat) (users : List User) :
    validateUsers i users = none ↔ ∀ u ∈ users, u.Name ≠ "" ∧ u.Token ≠ "" := by
  induction users generalizing i with
  | nil => simp [validateUsers]
  | cons u rest ih =>
    by_cases hn : u.Name = ""
    · simp [validateUsers, hn]
    · by_cases ht : u.Token = ""
      · simp [validateUsers, hn, ht]
      · simp [validateUsers, hn, ht, ih]

theorem setDefaults_Users (cfg : Config) : (setDefaults cfg).Users = cfg.Users := by
  unfold setDefaults
  by_cases h1 : cfg.ListenAddr = "" <;> by_cases h2 : cfg.MetricsPath = "" <;>
    by_cases h3 : cfg.PollInterval = 0 <;> simp [h1, h2, h3]

theorem setDefaults_ListenAddr (cfg : Config) :
    (setDefaults cfg).ListenAddr = if cfg.ListenAddr = "" then ":9101" else cfg.ListenAddr := by
  unfold setDefaults
  by_cases h1 : cfg.ListenAddr = "" <;> by_cases h2 : cfg.MetricsPath = "" <;>
    by_cases h3 : cfg.PollInterval = 0 <;> simp [h1, h2, h3]

theorem setDefaults_MetricsPath (cfg : Config) :
    (setDefaults cfg).MetricsPath
      = if cfg.MetricsPath = "" then "/metrics" else cfg.MetricsPath := by
  unfold setDefaults
  by_cases h1 : cfg.ListenAddr = "" <;> by_cases h2 : cfg.MetricsPath = "" <;>
    by_cases h3 : cfg.PollInterval = 0 <;> simp [h1, h2, h3]

theorem setDefaults_PollInterval (cfg : Config) :
    (setDefaults cfg).PollInterval = if cfg.PollInterval = 0 then 60 else cfg.PollInterval := by
  unfold setDefaults
  by_cases h1 : cfg.ListenAddr = "" <;> by_cases h2 : cfg.MetricsPath = "" <;>
    by_cases h3 : cfg.PollInterval = 0 <;> simp [h1, h2, h3]

/-- What `LoadConfig` does once the file is read and decoded. -/
theorem LoadConfig_of_decoded (env : Env) (path : String) (data : List UInt8) (parsed : Config)
    (hread : env.ReadFile path = .ok data)
    (hdec : decode env path data (ToLower env.unicodeToLower (Ext path)) = some (.ok parsed)) :
    LoadConfig env path =
      if parsed.Users = [] then .error ConfigError.noUsers
      else match validateUsers 0 parsed.Users with
        | some err => .error err
        | none => .ok (setDefaults parsed) := by
  unfold LoadConfig
  simp only [hread, hdec, setDefaults_Users, List.length_eq_zero]

/-- C5. When the file is read, its extension has a decoder and the decoder returns a
configuration with at least one user, every user with a non-empty name and a non-empty
token, `LoadConfig` succeeds, and the configuration it returns has: the listen address
":9101" if the decoded one is empty and the decoded one otherwise; the metrics path
"/metrics" if the decoded one is empty and the decoded one otherwise; the poll interval 60
if the decoded one is 0 and the decoded one otherwise. -/
theorem LoadConfig_applies_defaults (env : Env) (path : String) (data : List UInt8)
    (parsed : Config)
    (hread : env.ReadFile path = .ok data)
    (hdec : decode env path data (ToLower env.unicodeToLower (Ext path)) = some (.ok parsed))
    (husers : parsed.Users ≠ [])
    (hvalid : ∀ u ∈ parsed.Users, u.Name ≠ "" ∧ u.Token ≠ "") :
    ∃ cfg, LoadConfig env path = .ok cfg ∧
      cfg.ListenAddr = (if parsed.ListenAddr = "" then ":9101" else parsed.ListenAddr) ∧
      cfg.MetricsPath = (if parsed.MetricsPath = "" then "/metrics" else parsed.MetricsPath) ∧
      cfg.PollInterval = (if parsed.PollInterval = 0 then 60 else parsed.PollInterval) := by
  refine ⟨setDefaults parsed, ?_, setDefaults_ListenAddr parsed, setDefaults_MetricsPath parsed,
    setDefaults_PollInterval parsed⟩
  rw [LoadConfig_of_decoded env path data parsed hread hdec, if_neg husers,
    (validateUsers_eq_none_iff 0 parsed.Users).2 hvalid]

/-- The inputs of `TestLoadConfig_Defaults`: a YAML file with one user and nothing else
loads with ":9101", "/metrics" and 60. -/
theorem LoadConfig_applies_defaults_witness :
    (oneFile "config.yaml" (bytesOf "users") defaultsDoc).ReadFile "config.yaml"
      = .ok (bytesOf "users") ∧
    decode (oneFile "config.yaml" (bytesOf "users") defaultsDoc) "config.yaml"
      (bytesOf "users") (ToLower latin1ToLower (Ext "config.yaml")) = some (.ok defaultsDoc) ∧
    defaultsDoc.Users ≠ [] ∧
    (∀ u ∈ defaultsDoc.Users, u.Name ≠ "" ∧ u.Token ≠ "") ∧
    (∃ cfg, LoadConfig (oneFile "config.yaml" (bytesOf "users") defaultsDoc) "config.yaml"
        = .ok cfg ∧
      cfg.ListenAddr = (if defaultsDoc.ListenAddr = "" then ":9101"
        else defaultsDoc.ListenAddr) ∧
      cfg.MetricsPath = (if defaultsDoc.MetricsPath = "" then "/metrics"
        else defaultsDoc.MetricsPath) ∧
      cfg.PollInterval = (if defaultsDoc.PollInterval = 0 then 60
        else defaultsDoc.PollInterval)) ∧
    LoadConfig (oneFile "config.yaml" (bytesOf "users") defaultsDoc) "config.yaml"
      = .ok { Users := [{ Name := "test-user", Token := "test-token" }],
              ListenAddr := ":9101", MetricsPath := "/metrics", PollInterval := 60 } ∧
    LoadConfig (oneFile "config.yaml" (bytesOf "users") settingsDoc) "config.yaml"
      = .ok settingsDoc :=
  ⟨rfl, rfl, by decide, by decide,
    LoadConfig_applies_defaults (oneFile "config.yaml" (bytesOf "users") defaultsDoc)
      "config.yaml" (bytesOf "users") defaultsDoc rfl rfl (by decide) (by decide),
    rfl, rfl⟩

/-- C6. When the file is read, its extension has a decoder and the decoder returns a
configuration, `LoadConfig` returns an error (and then no configuration) exactly when the
decoded user list is empty or some user has an empty name or an empty token. The listen
address, the metrics path and the poll interval play no part. -/
theorem LoadConfig_fails_iff_invalid_users (env : Env) (path : String) (data : List UInt8)
    (parsed : Config)
    (hread : env.ReadFile path = .ok data)
    (hdec : decode env path data (ToLower env.unicodeToLower (Ext path)) = some (.ok parsed)) :
    (∃ err, LoadConfig env path = .error err) ↔
      (parsed.Users = [] ∨ ∃ u ∈ parsed.Users, u.Name = "" ∨ u.Token = "") := by
  rw [LoadConfig_of_decoded env path data parsed hread hdec]
  by_cases hu : parsed.Users = []
  · simp [hu]
  · cases hv : validateUsers 0 parsed.Users with
    | none =>
      have hall := (validateUsers_eq_none_iff 0 parsed.Users).1 hv
      simp only [hu, if_false, false_or]
      constructor
      · rintro ⟨err, h⟩
        cases h
      · rintro ⟨u, hmem, h⟩
        rcases h with h | h
        · exact absurd h (hall u hmem).1
        · exact absurd h (hall u hmem).2
    | some e =>
      simp only [hu, if_false, false_or]
      constructor
      · intro _
        by_contra hno
        have hall : ∀ u ∈ parsed.Users, u.Name ≠ "" ∧ u.Token ≠ "" := by
          intro u hmem
          constructor
          · intro h
            exact hno ⟨u, hmem, Or.inl h⟩
          · intro h
            exact hno ⟨u, hmem, Or.inr h⟩
        rw [(validateUsers_eq_none_iff 0 parsed.Users).2 hall] at hv
        cases hv
      · intro _
        exact ⟨e, rfl⟩

/-- The inputs of `TestLoadConfig_NoUsers`: a YAML file with a listen address and no user
does not load. -/
theorem LoadConfig_fails_iff_invalid_users_witness :
    (oneFile "config.yaml" (bytesOf "listen_addr") noUsersDoc).ReadFile "config.yaml"
      = .ok (bytesOf "listen_addr") ∧
    decode (oneFile "config.yaml" (bytesOf "listen_addr") noUsersDoc) "config.yaml"
      (bytesOf "listen_addr") (ToLower latin1ToLower (Ext "config.yaml")) = some (.ok noUsersDoc) ∧
    ((∃ err, LoadConfig (oneFile "config.yaml" (bytesOf "listen_addr") noUsersDoc)
        "config.yaml" = .error err) ↔
      (noUsersDoc.Users = [] ∨ ∃ u ∈ noUsersDoc.Users, u.Name = "" ∨ u.Token = "")) ∧
    LoadConfig (oneFile "config.yaml" (bytesOf "listen_addr") noUsersDoc) "config.yaml"
      = .error ConfigError.noUsers :=
  ⟨rfl, rfl,
    LoadConfig_fails_iff_invalid_users
      (oneFile "config.yaml" (bytesOf "listen_addr") noUsersDoc) "config.yaml"
      (bytesOf "listen_addr") noUsersDoc rfl rfl,
    rfl⟩

/-- A file that cannot be read fails with the read error, whatever its extension. -/
theorem LoadConfig_read_error (env : Env) (path : String) (cause : String)
    (hread : env.ReadFile path = .error cause) :
    LoadConfig env path = .error (ConfigError.readFailed cause) := by
  unfold LoadConfig
  simp only [hread]

theorem decode_eq_none_iff (env : Env) (path : String) (data : List UInt8) (ext : String) :
    decode env path data ext = none ↔ ext ∉ supportedExts := by
  unfold decode supportedExts
  by_cases h1 : ext = ".yaml"
  · simp [h1]
  · by_cases h2 : ext = ".yml"
    · simp [h2]
    · by_cases h3 : ext = ".toml"
      · simp [h3]
      · by_cases h4 : ext = ".hcl"
        · simp [h4]
        · simp [h1, h2, h3, h4]

/-- C7, as the claim states it, fails on two inputs. The path "missing.txt" has the
extension ".txt" and no file: `LoadConfig` fails with the read error, not with the
unsupported-format error. The path "config.YAML" has the extension ".YAML", which is
none of the four, and holds a valid document: `LoadConfig` lower-cases the extension,
decodes the file as YAML and succeeds. -/
theorem LoadConfig_unsupported_format_claim_fails :
    (Ext "missing.txt" ∉ supportedExts ∧
      LoadConfig (oneFile "config.yaml" (bytesOf "users") settingsDoc) "missing.txt"
        = .error (ConfigError.readFailed "open: no such file or directory") ∧
      ∀ ext, LoadConfig (oneFile "config.yaml" (bytesOf "users") settingsDoc) "missing.txt"
        ≠ .error (ConfigError.unsupportedFormat ext)) ∧
    (Ext "config.YAML" ∉ supportedExts ∧
      LoadConfig (oneFile "config.YAML" (bytesOf "users") settingsDoc) "config.YAML"
        = .ok settingsDoc) := by
  refine ⟨⟨by decide, rfl, ?_⟩, by decide, rfl⟩
  intro ext h
  have hr : LoadConfig (oneFile "config.yaml" (bytesOf "users") settingsDoc) "missing.txt"
      = .error (ConfigError.readFailed "open: no such file or directory") := rfl
  rw [hr] at h
  cases h

/-- C7, amended. For every file that can be read: if the lower-cased extension of its path
is none of ".yaml", ".yml", ".toml", ".hcl", `LoadConfig` fails with the
unsupported-format error, whatever the file contains; if it is one of them and the decoder
of that format rejects the content, `LoadConfig` fails with the parse error. No
configuration is returned in either case. -/
theorem LoadConfig_format_and_parse_errors (env : Env) (path : String) (data : List UInt8)
    (hread : env.ReadFile path = .ok data) :
    (ToLower env.unicodeToLower (Ext path) ∉ supportedExts →
      LoadConfig env path
        = .error (ConfigError.unsupportedFormat (ToLower env.unicodeToLower (Ext path)))) ∧
    (∀ err, (ToLower env.unicodeToLower (Ext path) = ".yaml" ∨
        ToLower env.unicodeToLower (Ext path) = ".yml") →
      env.yamlUnmarshal data = .error err →
      LoadConfig env path = .error (ConfigError.parseFailed err)) ∧
    (∀ err, ToLower env.unicodeToLower (Ext path) = ".toml" → env.tomlUnmarshal data = .error err →
      LoadConfig env path = .error (ConfigError.parseFailed err)) ∧
    (∀ err, ToLower env.unicodeToLower (Ext path) = ".hcl" → env.hclDecode path data = .error err →
      LoadConfig env path = .error (ConfigError.parseFailed err)) := by
  refine ⟨?_, ?_, ?_, ?_⟩
  · intro h
    have hd := (decode_eq_none_iff env path data (ToLower env.unicodeToLower (Ext path))).2 h
    unfold LoadConfig
    simp only [hread, hd]
  · intro err hext herr
    have hd : decode env path data (ToLower env.unicodeToLower (Ext path)) = some (.error err) := by
      unfold decode
      rw [if_pos hext, herr]
    unfold LoadConfig
    simp only [hread, hd]
  · intro err hext herr
    have hd : decode env path data (ToLower env.unicodeToLower (Ext path)) = some (.error err) := by
      unfold decode
      rw [hext, herr]
      rfl
    unfold LoadConfig
    simp only [hread, hd]
  · intro err hext herr
    have hd : decode env path data (ToLower env.unicodeToLower (Ext path)) = some (.error err) := by
      unfold decode
      rw [hext, herr]
      rfl
    unfold LoadConfig
    simp only [hread, hd]

/-- The inputs of `TestLoadConfig_UnsupportedFormat` and `TestLoadConfig_InvalidYAML`: a
readable ".txt" file fails with the unsupported-format error, a readable ".yaml" file the
YAML decoder rejects fails with the parse error. A readable "config.ÄB" fails with the
unsupported-format error for the extension ".äb", lower-cased beyond ASCII. -/
theorem LoadConfig_format_and_parse_errors_witness :
    (oneBadFile "config.txt" (bytesOf "invalid content")).ReadFile "config.txt"
      = .ok (bytesOf "invalid content") ∧
    ToLower latin1ToLower (Ext "config.txt") ∉ supportedExts ∧
    LoadConfig (oneBadFile "config.txt" (bytesOf "invalid content")) "config.txt"
      = .error (ConfigError.unsupportedFormat ".txt") ∧
    LoadConfig (oneBadFile "config.yaml" (bytesOf "invalid yaml syntax here")) "config.yaml"
      = .error (ConfigError.parseFailed "yaml: bad input") ∧
    LoadConfig (oneBadFile "config.ÄB" (bytesOf "invalid content")) "config.ÄB"
      = .error (ConfigError.unsupportedFormat ".äb") :=
  ⟨rfl, by decide,
    (LoadConfig_format_and_parse_errors (oneBadFile "config.txt" (bytesOf "invalid content"))
      "config.txt" (bytesOf "invalid content") rfl).1 (by decide),
    (LoadConfig_format_and_parse_errors
      (oneBadFile "config.yaml" (bytesOf "invalid yaml syntax here")) "config.yaml"
      (bytesOf "invalid yaml syntax here") rfl).2.1 "yaml: bad input" (Or.inl rfl) rfl,
    (LoadConfig_format_and_parse_errors (oneBadFile "config.ÄB" (bytesOf "invalid content"))
      "config.ÄB" (bytesOf "invalid content") rfl).1 (by decide)⟩

/-- C10. Every configuration `LoadConfig` returns comes from a file that was read and
decoded, and its user list is the decoded user list: same length, same order, same names
and tokens. -/
theorem LoadConfig_keeps_users (env : Env) (path : String) (cfg : Config)
    (h : LoadConfig env path = .ok cfg) :
    ∃ data parsed, env.ReadFile path = .ok data ∧
      decode env path data (ToLower env.unicodeToLower (Ext path)) = some (.ok parsed) ∧
      cfg.Users = parsed.Users ∧ cfg.Users.length = parsed.Users.length := by
  cases hread : env.ReadFile path with
  | error cause =>
    rw [LoadConfig_read_error env path cause hread] at h
    cases h
  | ok data =>
    cases hdec : decode env path data (ToLower env.unicodeToLower (Ext path)) with
    | none =>
      unfold LoadConfig at h
      simp only [hread, hdec] at h
      cases h
    | some res =>
      cases res with
      | error err =>
        unfold LoadConfig at h
        simp only [hread, hdec] at h
        cases h
      | ok parsed =>
        rw [LoadConfig_of_decoded env path data parsed hread hdec] at h
        refine ⟨data, parsed, rfl, hdec, ?_⟩
        by_cases hu : parsed.Users = []
        · rw [if_pos hu] at h
          cases h
        · rw [if_neg hu] at h
          cases hv : validateUsers 0 parsed.Users with
          | some e =>
            rw [hv] at h
            cases h
          | none =>
            rw [hv] at h
            have hc : cfg = setDefaults parsed := by
              injection h with h
              exact h.symm
            rw [hc, setDefaults_Users]
            exact ⟨rfl, rfl⟩

/-- The inputs of `TestLoadConfig_MultipleUsers`: the three users user1, user2, user3 come
back as three entries in that order with the tokens token1, token2, token3. -/
theorem LoadConfig_keeps_users_witness :
    LoadConfig (oneFile "config.yaml" (bytesOf "users") threeUsersDoc) "config.yaml"
      = .ok { Users := [{ Name := "user1", Token := "token1" },
                { Name := "user2", Token := "token2" }, { Name := "user3", Token := "token3" }],
              ListenAddr := ":9101", MetricsPath := "/metrics", PollInterval := 60 } ∧
    ∃ data parsed,
      (oneFile "config.yaml" (bytesOf "users") threeUsersDoc).ReadFile "config.yaml"
        = .ok data ∧
      decode (oneFile "config.yaml" (bytesOf "users") threeUsersDoc) "config.yaml" data
        (ToLower latin1ToLower (Ext "config.yaml")) = some (.ok parsed) ∧
      [{ Name := "user1", Token := "token1" }, { Name := "user2", Token := "token2" },
        { Name := "user3", Token := "token3" }] = parsed.Users ∧
      [({ Name := "user1", Token := "token1" } : User), { Name := "user2", Token := "token2" },
        { Name := "user3", Token := "token3" }].length = parsed.Users.length :=
  ⟨rfl,
    LoadConfig_keeps_users (oneFile "config.yaml" (bytesOf "users") threeUsersDoc)
      "config.yaml" _ rfl⟩

/-! ## The life of the stored series -/

theorem mem_entries_iff (c : Collector) (metric account : String) :
    (metric, account) ∈ entries c ↔
      ∃ cat facet, metric = (c.series cat facet).Name ∧
        account ∈ (c.series cat facet).metrics.keys := by
  have hg : ∀ g : GaugeVec, (∃ v, (metric, account, v) ∈ g.Collect) ↔
      (metric = g.Name ∧ account ∈ g.metrics.keys) := by
    intro g
    simp only [GaugeVec.Collect, StrMap.keys, List.mem_map, Prod.mk.injEq, Prod.exists]
    constructor
    · rintro ⟨v, k, v', hmem, h1, h2, _⟩
      exact ⟨h1.symm, k, v', hmem, h2⟩
    · rintro ⟨h1, k, v', hmem, h2⟩
      exact ⟨v', k, v', hmem, h1.symm, h2, rfl⟩
  have he : (metric, account) ∈ entries c ↔ ∃ v, (metric, account, v) ∈ c.Collect := by
    simp only [entries, List.mem_map, Prod.mk.injEq, Prod.exists]
    constructor
    · rintro ⟨m, a, v, hmem, h1, h2⟩
      subst h1 h2
      exact ⟨v, hmem⟩
    · rintro ⟨v, hmem⟩
      exact ⟨metric, account, v, hmem, rfl, rfl⟩
  rw [he]
  constructor
  · rintro ⟨v, hmem⟩
    simp only [Collector.Collect, List.mem_append] at hmem
    rcases hmem with (((((((((((((((h | h) | h) | h) | h) | h) | h) | h) | h) | h) | h) | h) | h)
      | h) | h) | h)
    · exact ⟨.core, .limit, (hg _).1 ⟨v, h⟩⟩
    · exact ⟨.core, .remaining, (hg _).1 ⟨v, h⟩⟩
    · exact ⟨.core, .used, (hg _).1 ⟨v, h⟩⟩
    · exact ⟨.core, .reset, (hg _).1 ⟨v, h⟩⟩
    · exact ⟨.search, .limit, (hg _).1 ⟨v, h⟩⟩
    · exact ⟨.search, .remaining, (hg _).1 ⟨v, h⟩⟩
    · exact ⟨.search, .used, (hg _).1 ⟨v, h⟩⟩
    · exact ⟨.search, .reset, (hg _).1 ⟨v, h⟩⟩
    · exact ⟨.graphql, .limit, (hg _).1 ⟨v, h⟩⟩
    · exact ⟨.graphql, .remaining, (hg _).1 ⟨v, h⟩⟩
    · exact ⟨.graphql, .used, (hg _).1 ⟨v, h⟩⟩
    · exact ⟨.graphql, .reset, (hg _).1 ⟨v, h⟩⟩
    · exact ⟨.integrationManifest, .limit, (hg _).1 ⟨v, h⟩⟩
    · exact ⟨.integrationManifest, .remaining, (hg _).1 ⟨v, h⟩⟩
    · exact ⟨.integrationManifest, .used, (hg _).1 ⟨v, h⟩⟩
    · exact ⟨.integrationManifest, .reset, (hg _).1 ⟨v, h⟩⟩
  · rintro ⟨cat, facet, h⟩
    obtain ⟨v, hv⟩ := (hg _).2 h
    refine ⟨v, ?_⟩
    simp only [Collector.Collect, List.mem_append]
    cases cat <;> cases facet <;> simp only [Collector.series] at hv <;> simp [hv]

theorem series_name_after_blocks (c : Collector) (name : String) (rateLimits : RateLimits)
    (cat : Category) (facet : Facet) :
    ((setIntegrationManifest (setGraphQL (setSearch (setCore c name rateLimits.Core) name
      rateLimits.Search) name rateLimits.GraphQL) name rateLimits.IntegrationManifest).series
        cat facet).Name = (c.series cat facet).Name := by
  obtain ⟨co, se, gr, im⟩ := rateLimits
  cases co <;> cases se <;> cases gr <;> cases im <;> cases cat <;> cases facet <;>
    simp [setCore, setSearch, setGraphQL, setIntegrationManifest, Collector.series,
      GaugeVec.Set]

theorem collector_of_fetched (c : Collector) (Get : Client → Except String (Option RateLimits))
    (user : User) :
    (updateUserRateLimits c Get user).collector =
      match fetched c Get user with
      | some rateLimits =>
        setIntegrationManifest (setGraphQL (setSearch (setCore c user.Name rateLimits.Core)
          user.Name rateLimits.Search) user.Name rateLimits.GraphQL) user.Name
          rateLimits.IntegrationManifest
      | none => c := by
  unfold fetched
  cases hl : c.clients.lookup user.Name with
  | none =>
    unfold updateUserRateLimits
    simp only [hl]
    rfl
  | some client =>
    cases hg : Get client with
    | error e =>
      unfold updateUserRateLimits
      simp only [hl, hg]
      rfl
    | ok o =>
      cases o with
      | none =>
        unfold updateUserRateLimits
        simp only [hl, hg]
        rfl
      | some rateLimits =>
        simp only [hg]
        exact collector_of_success c Get user client rateLimits hl hg

theorem mem_keys_after_blocks (c : Collector) (name : String) (rateLimits : RateLimits)
    (cat : Category) (facet : Facet) (account : String) :
    account ∈ ((setIntegrationManifest (setGraphQL (setSearch (setCore c name rateLimits.Core)
      name rateLimits.Search) name rateLimits.GraphQL) name
      rateLimits.IntegrationManifest).series cat facet).metrics.keys ↔
      (account ∈ (c.series cat facet).metrics.keys ∨
        (account = name ∧ (rateLimits.rate cat).isSome = true)) := by
  rw [StrMap.mem_keys_iff_lookup, StrMap.mem_keys_iff_lookup]
  have hv := value_after_blocks c name rateLimits cat facet account
  unfold Collector.value at hv
  rw [hv]
  by_cases hn : account = name
  · cases hr : rateLimits.rate cat <;> simp [hn]
  · simp [hn]

/-- An operation keeps every stored entry. -/
theorem step_keeps_entries (c : Collector) (op : Op) (metric account : String)
    (h : (metric, account) ∈ entries c) : (metric, account) ∈ entries (step c op).collector := by
  cases op with
  | collect => exact h
  | update Get user =>
    show (metric, account) ∈ entries (updateUserRateLimits c Get user).collector
    rw [collector_of_fetched]
    cases fetched c Get user with
    | none => exact h
    | some rateLimits =>
      obtain ⟨cat, facet, hname, hkey⟩ := (mem_entries_iff c metric account).1 h
      refine (mem_entries_iff _ metric account).2 ⟨cat, facet, ?_, ?_⟩
      · rw [series_name_after_blocks]
        exact hname
      · exact (mem_keys_after_blocks c user.Name rateLimits cat facet account).2 (Or.inl hkey)

/-- An entry an operation adds belongs to the account of a successful fetch. -/
theorem step_new_entry (c : Collector) (op : Op) (metric account : String)
    (h : (metric, account) ∈ entries (step c op).collector) :
    (metric, account) ∈ entries c ∨
      ∃ Get user, op = Op.update Get user ∧ user.Name = account ∧
        (fetched c Get user).isSome = true := by
  cases op with
  | collect => exact Or.inl h
  | update Get user =>
    have h' : (metric, account) ∈ entries (updateUserRateLimits c Get user).collector := h
    rw [collector_of_fetched] at h'
    cases hf : fetched c Get user with
    | none =>
      rw [hf] at h'
      exact Or.inl h'
    | some rateLimits =>
      rw [hf] at h'
      obtain ⟨cat, facet, hname, hkey⟩ := (mem_entries_iff _ metric account).1 h'
      rw [series_name_after_blocks] at hname
      rcases (mem_keys_after_blocks c user.Name rateLimits cat facet account).1 hkey with hk | hk
      · exact Or.inl ((mem_entries_iff c metric account).2 ⟨cat, facet, hname, hk⟩)
      · exact Or.inr ⟨Get, user, rfl, hk.1.symm, by rw [hf]; rfl⟩

theorem run_keeps_entries (c : Collector) (ops : List Op) (metric account : String)
    (h : (metric, account) ∈ entries c) : (metric, account) ∈ entries (run c ops).collector := by
  induction ops generalizing c with
  | nil => exact h
  | cons op rest ih =>
    have hstep := step_keeps_entries c op metric account h
    unfold run
    cases hs : step c op with
    | returned c' =>
      rw [hs] at hstep
      exact ih c' hstep
    | panicked c' =>
      rw [hs] at hstep
      exact hstep

theorem run_cons (c : Collector) (op : Op) (rest : List Op) :
    run c (op :: rest) =
      match step c op with
      | .returned c' => run c' rest
      | .panicked c' => .panicked c' := rfl

theorem run_append (c : Collector) (pre post : List Op) :
    run c (pre ++ post) =
      match run c pre with
      | .returned c' => run c' post
      | .panicked c' => .panicked c' := by
  induction pre generalizing c with
  | nil => rfl
  | cons op rest ih =>
    rw [List.cons_append, run_cons, run_cons]
    cases hs : step c op with
    | returned c' => exact ih c'
    | panicked c' => rfl

theorem run_new_entry (c : Collector) (ops : List Op) (metric account : String)
    (h : (metric, account) ∈ entries (run c ops).collector) :
    (metric, account) ∈ entries c ∨
      ∃ before Get user after c', ops = before ++ Op.update Get user :: after ∧
        run c before = Outcome.returned c' ∧ user.Name = account ∧
        (fetched c' Get user).isSome = true := by
  induction ops generalizing c with
  | nil => exact Or.inl h
  | cons op rest ih =>
    unfold run at h
    cases hs : step c op with
    | returned c1 =>
      rw [hs] at h
      rcases ih c1 h with h1 | ⟨before, Get, user, after, c', hops, hrun, hname, hf⟩
      · have h1' : (metric, account) ∈ entries (step c op).collector := by
          rw [hs]
          exact h1
        rcases step_new_entry c op metric account h1' with h0 | ⟨Get, user, hop, hname, hf⟩
        · exact Or.inl h0
        · exact Or.inr ⟨[], Get, user, rest, c, by rw [hop]; rfl, rfl, hname, hf⟩
      · refine Or.inr ⟨op :: before, Get, user, after, c', by rw [hops]; rfl, ?_, hname, hf⟩
        unfold run
        rw [hs]
        exact hrun
    | panicked c1 =>
      rw [hs] at h
      have h1' : (metric, account) ∈ entries (step c op).collector := by
        rw [hs]
        exact h
      rcases step_new_entry c op metric account h1' with h0 | ⟨Get, user, hop, hname, hf⟩
      · exact Or.inl h0
      · exact Or.inr ⟨[], Get, user, rest, c, by rw [hop]; rfl, rfl, hname, hf⟩

/-- C11. For every list of accounts and every sequence of updates and exports run from
`NewCollector`: the fresh collector exports nothing; every sample exported after the
sequence carries the name of an account for which an update earlier in the sequence was
reached and fetched a response; and every stored entry (metric, account) present after a
part of the sequence is present after the whole of it, so the set of entries never
shrinks and no operation removes a series. -/
theorem snapshot_lifecycle (users : List User) (pre post : List Op) :
    (NewCollector users).Collect = [] ∧
    (∀ sample ∈ (run (NewCollector users) (pre ++ post)).collector.Collect,
      ∃ before Get user after c,
        pre ++ post = before ++ Op.update Get user :: after ∧
        run (NewCollector users) before = Outcome.returned c ∧
        user.Name = sample.2.1 ∧ (fetched c Get user).isSome = true) ∧
    (∀ entry ∈ entries (run (NewCollector users) pre).collector,
      entry ∈ entries (run (NewCollector users) (pre ++ post)).collector) := by
  have hfresh : (NewCollector users).Collect = [] := rfl
  refine ⟨hfresh, ?_, ?_⟩
  · intro sample hmem
    have he : (sample.1, sample.2.1) ∈ entries (run (NewCollector users) (pre ++ post)).collector :=
      List.mem_map.2 ⟨sample, hmem, rfl⟩
    rcases run_new_entry (NewCollector users) (pre ++ post) sample.1 sample.2.1 he with h0 | h1
    · unfold entries at h0
      rw [hfresh] at h0
      cases h0
    · exact h1
  · rintro ⟨metric, account⟩ hmem
    rw [run_append]
    cases hr : run (NewCollector users) pre with
    | returned c' =>
      rw [hr] at hmem
      exact run_keeps_entries c' post metric account hmem
    | panicked c' =>
      rw [hr] at hmem
      exact hmem

/-- One pass over alice and bob and an export: alice is answered, the call for bob times
out. The entries after the update of alice are there after the whole pass, every exported
sample carries the name of alice, and bob has no series. -/
theorem snapshot_lifecycle_witness :
    ((NewCollector [alice, bob]).Collect = [] ∧
      (∀ sample ∈ (run (NewCollector [alice, bob])
          ([Op.update bobTimesOut alice] ++ [Op.update bobTimesOut bob, Op.collect])).collector.Collect,
        ∃ before Get user after c,
          [Op.update bobTimesOut alice] ++ [Op.update bobTimesOut bob, Op.collect]
            = before ++ Op.update Get user :: after ∧
          run (NewCollector [alice, bob]) before = Outcome.returned c ∧
          user.Name = sample.2.1 ∧ (fetched c Get user).isSome = true) ∧
      (∀ entry ∈ entries (run (NewCollector [alice, bob]) [Op.update bobTimesOut alice]).collector,
        entry ∈ entries (run (NewCollector [alice, bob])
          ([Op.update bobTimesOut alice] ++ [Op.update bobTimesOut bob, Op.collect])).collector)) ∧
    ("github_rate_limit_core_used", "alice") ∈ entries (run (NewCollector [alice, bob])
      [Op.update bobTimesOut alice]).collector ∧
    snapshotOf (run (NewCollector [alice, bob]) onePass).collector "bob" = [] :=
  ⟨snapshot_lifecycle [alice, bob] [Op.update bobTimesOut alice]
      [Op.update bobTimesOut bob, Op.collect],
    by decide, rfl⟩

/-! ## The polling interval of a loaded configuration -/

theorem wrapInt_exact {x : Int} (hlo : -(2 ^ 63) ≤ x) (hhi : x < 2 ^ 63) : wrapInt x = x := by
  unfold wrapInt
  have h : (x + 2 ^ 63) % 2 ^ 64 = x + 2 ^ 63 := Int.emod_eq_of_lt (by omega) (by omega)
  omega

/-- C12, as the claim states it, fails on two inputs. A document with `poll_interval: -5`
loads, and the configuration returned has the poll interval -5: the interval passed to
`StartPolling` is negative and `time.NewTicker` panics. A document with a poll interval of
9223372037 seconds loads with a positive poll interval, yet its product with `time.Second`
wraps to a negative duration and `time.NewTicker` panics as well. -/
theorem LoadConfig_poll_interval_not_always_positive :
    (LoadConfig (oneFile "config.yaml" (bytesOf "users") negativeIntervalDoc) "config.yaml"
        = .ok negativeIntervalLoaded ∧
      ¬ 0 < negativeIntervalLoaded.PollInterval ∧
      pollDuration negativeIntervalLoaded = -5000000000 ∧
      NewTicker (pollDuration negativeIntervalLoaded) = none) ∧
    (LoadConfig (oneFile "config.yaml" (bytesOf "users") hugeIntervalDoc) "config.yaml"
        = .ok hugeIntervalLoaded ∧
      0 < hugeIntervalLoaded.PollInterval ∧
      pollDuration hugeIntervalLoaded = -9223372036709551616 ∧
      NewTicker (pollDuration hugeIntervalLoaded) = none) := by
  refine ⟨⟨rfl, by decide, by decide, by decide⟩, rfl, by decide, by decide, by decide⟩

/-- C12, amended. Every configuration `LoadConfig` returns comes from a decoded document
and its poll interval is 60 if the decoded one is 0 and the decoded one otherwise: it is
never 0. When the decoded poll interval is between 0 and 9223372036, the poll interval
returned is strictly positive, the interval `main` passes to `StartPolling` is that number
of seconds, a positive duration, and `time.NewTicker` builds the ticker. -/
theorem LoadConfig_poll_interval (env : Env) (path : String) (cfg : Config)
    (h : LoadConfig env path = .ok cfg) :
    ∃ data parsed, env.ReadFile path = .ok data ∧
      decode env path data (ToLower env.unicodeToLower (Ext path)) = some (.ok parsed) ∧
      cfg.PollInterval = (if parsed.PollInterval = 0 then 60 else parsed.PollInterval) ∧
      cfg.PollInterval ≠ 0 ∧
      (0 ≤ parsed.PollInterval → parsed.PollInterval ≤ 9223372036 →
        0 < cfg.PollInterval ∧
        pollDuration cfg = cfg.PollInterval * 1000000000 ∧
        0 < pollDuration cfg ∧
        NewTicker (pollDuration cfg) = some { period := cfg.PollInterval * 1000000000 }) := by
  cases hread : env.ReadFile path with
  | error cause =>
    rw [LoadConfig_read_error env path cause hread] at h
    cases h
  | ok data =>
    cases hdec : decode env path data (ToLower env.unicodeToLower (Ext path)) with
    | none =>
      unfold LoadConfig at h
      simp only [hread, hdec] at h
      cases h
    | some res =>
      cases res with
      | error err =>
        unfold LoadConfig at h
        simp only [hread, hdec] at h
        cases h
      | ok parsed =>
        rw [LoadConfig_of_decoded env path data parsed hread hdec] at h
        have hc : cfg = setDefaults parsed := by
          by_cases hu : parsed.Users = []
          · rw [if_pos hu] at h
            cases h
          · rw [if_neg hu] at h
            cases hv : validateUsers 0 parsed.Users with
            | some e =>
              rw [hv] at h
              cases h
            | none =>
              rw [hv] at h
              injection h with h
              exact h.symm
        have hp : cfg.PollInterval
            = (if parsed.PollInterval = 0 then 60 else parsed.PollInterval) := by
          rw [hc, setDefaults_PollInterval]
        have hne : cfg.PollInterval ≠ 0 := by
          rw [hp]
          by_cases h0 : parsed.PollInterval = 0
          · rw [if_pos h0]
            decide
          · rw [if_neg h0]
            exact h0
        refine ⟨data, parsed, rfl, hdec, hp, hne, ?_⟩
        intro hlo hhi
        have hpos : 0 < cfg.PollInterval := by
          rw [hp]
          by_cases h0 : parsed.PollInterval = 0
          · rw [if_pos h0]
            decide
          · rw [if_neg h0]
            omega
        have hle : cfg.PollInterval ≤ 9223372036 := by
          rw [hp]
          by_cases h0 : parsed.PollInterval = 0
          · rw [if_pos h0]
            decide
          · rw [if_neg h0]
            exact hhi
        have hd : pollDuration cfg = cfg.PollInterval * 1000000000 := by
          unfold pollDuration Second
          exact wrapInt_exact (by omega) (by omega)
        have hdpos : 0 < pollDuration cfg := by
          rw [hd]
          omega
        refine ⟨hpos, hd, hdpos, ?_⟩
        unfold NewTicker
        rw [if_neg (by omega), hd]

/-- The inputs of `TestLoadConfig_YAML` and `TestLoadConfig_Defaults`: a poll interval of 30
gives a ticker of 30 seconds, a document without poll interval one of 60 seconds. -/
theorem LoadConfig_poll_interval_witness :
    LoadConfig (oneFile "config.yaml" (bytesOf "users") settingsDoc) "config.yaml"
      = .ok settingsDoc ∧
    (∃ data parsed,
      (oneFile "config.yaml" (bytesOf "users") settingsDoc).ReadFile "config.yaml" = .ok data ∧
      decode (oneFile "config.yaml" (bytesOf "users") settingsDoc) "config.yaml" data
        (ToLower latin1ToLower (Ext "config.yaml")) = some (.ok parsed) ∧
      settingsDoc.PollInterval
        = (if parsed.PollInterval = 0 then 60 else parsed.PollInterval) ∧
      settingsDoc.PollInterval ≠ 0 ∧
      (0 ≤ parsed.PollInterval → parsed.PollInterval ≤ 9223372036 →
        0 < settingsDoc.PollInterval ∧
        pollDuration settingsDoc = settingsDoc.PollInterval * 1000000000 ∧
        0 < pollDuration settingsDoc ∧
        NewTicker (pollDuration settingsDoc)
          = some { period := settingsDoc.PollInterval * 1000000000 })) ∧
    NewTicker (pollDuration settingsDoc) = some { period := 30000000000 } ∧
    NewTicker (pollDuration (setDefaults defaultsDoc)) = some { period := 60000000000 } :=
  ⟨rfl,
    LoadConfig_poll_interval (oneFile "config.yaml" (bytesOf "users") settingsDoc)
      "config.yaml" settingsDoc rfl,
    by decide, by decide⟩

end GithubRateLimitExporter
